import Mathlib

/-!
Verification development for the `datxpy` repository.

Part 1 — the decoder (`src/reader.py`, class `HDF5Reader`).

`HDF5Reader.decode_group` is a dynamically-typed recursive normalizer over
h5py groups, attribute managers, datasets, numpy arrays (numeric, object and
structured dtypes), numpy `void` records, byte strings, Python lists/tuples
and plain scalars.  We embed the dynamic value universe as one inductive type
`V` covering both the source-side and the decoded-side values (as in Python,
where both sides are just objects), and `decode` as a fallible function
`V → Except String V`; a Python exception raised during decoding is an
`Except.error`.

Faithfulness notes, mirrored line by line from `src/reader.py`:
* a `h5py.Group` decodes to a dict of its decoded children; the decoded
  attribute dict is stored under key `attributes` only when `len(g.attrs)`
  is nonzero (`if len(g.attrs):`), and Python dict assignment overwrites an
  existing key in place (a child literally named `attributes` keeps its slot
  but loses its value);
* a `h5py.Dataset` decodes to `{'attributes': decode(g.attrs)}` and then
  tries `data['values'] = g[()]`, storing the RAW value (no recursive
  decoding) and silently dropping the key when the read raises;
* a numeric `np.ndarray` is unwrapped to its scalar ONLY when its shape is
  exactly `(1,)` (`g.shape == (1,)`); every other numeric array is returned
  unchanged;
* an object-dtype array / a structured array / a `np.void` record decode
  their elements recursively and then re-run `decode` on the resulting list,
  whose only effect (the list branch) is singleton unwrapping;
* `void2dict` builds `dict(zip(obj.dtype.names, decode_group(record)))`:
  `zip` over a non-iterable (a bare number, produced by singleton unwrap of
  a one-field record) raises `TypeError`; `zip` over a string iterates its
  characters; `zip` over a dict iterates its keys; `zip` over an array
  iterates its first axis.
-/

/-- The dynamic value universe of `decode_group`: h5py groups (children plus
attribute list), attribute managers, datasets (attribute list plus an
optional raw value, `none` meaning the raw read `g[()]` raises), numeric
numpy arrays (shape and flat row-major data), object-dtype arrays,
structured record arrays (field names and the record list), single `np.void`
records (their field-value list), byte strings, Python lists, Python dicts,
numbers and text strings.  Numbers are modelled by `ℚ`. -/
inductive V where
  | group (children : List (String × V)) (attrs : List (String × V))
  | attrSet (items : List (String × V))
  | dataset (attrs : List (String × V)) (value : Option V)
  | numArr (shape : List Nat) (data : List ℚ)
  | objArr (elems : List V)
  | voidArr (names : List String) (records : List V)
  | voidRec (fields : List V)
  | bytes (b : String)
  | pylist (xs : List V)
  | pydict (entries : List (String × V))
  | num (q : ℚ)
  | str (s : String)
deriving Repr

/-- The list/tuple branch of `decode_group`:
`return g[0] if len(g) == 1 else g`. -/
def unwrapList : List V → V
  | [x] => x
  | xs => V.pylist xs

/-- Python dict assignment `d[k] = v`: overwrite the first entry with key
`k` in place, or append a new entry at the end. -/
def setKey : List (String × V) → String → V → List (String × V)
  | [], k, v => [(k, v)]
  | (k0, v0) :: rest, k, v =>
      if k0 = k then (k, v) :: rest else (k0, v0) :: setKey rest k v

/-- Elements along the first axis of a numeric numpy array of shape
`n :: rest` with flat data `data` (what `for x in arr` yields): scalars for
a 1-D array, sub-arrays of shape `rest` otherwise. -/
def arrRows (n : Nat) (rest : List Nat) (data : List ℚ) : List V :=
  match rest with
  | [] => data.map V.num
  | _ =>
      (List.range n).map
        (fun i => V.numArr rest ((data.drop (i * rest.prod)).take rest.prod))

/-- `dict(zip(names, v))` as used in `void2dict`.  `zip` iterates its second
argument: a list pairs elementwise, a string pairs with its one-character
substrings, a dict pairs with its keys, a numeric array pairs with its
first-axis elements; a bare number (or any other non-iterable) raises
`TypeError`. -/
def zipDict (names : List String) : V → Except String (List (String × V))
  | V.pylist xs => Except.ok (names.zip xs)
  | V.str s => Except.ok (names.zip (s.toList.map (fun c => V.str (String.mk [c]))))
  | V.pydict entries => Except.ok (names.zip (entries.map (fun kv => V.str kv.1)))
  | V.numArr shape data =>
      match shape with
      | [] => Except.error "TypeError: zip argument is not iterable"
      | n :: rest => Except.ok (names.zip (arrRows n rest data))
  | _ => Except.error "TypeError: zip argument is not iterable"

mutual

/-- `HDF5Reader.decode_group` (src/reader.py lines 123-192), with
`HDF5Reader.convert` inlined for groups and attribute managers and
`HDF5Reader.void2dict` as the separate function `void2dict` below. -/
def decode : V → Except String V
  | V.group children attrs => do
      let entries ← decodeEntries children
      if attrs.length = 0 then
        pure (V.pydict entries)
      else do
        let a ← decodeEntries attrs
        pure (V.pydict (setKey entries "attributes" (V.pydict a)))
  | V.attrSet items => do
      let entries ← decodeEntries items
      pure (V.pydict entries)
  | V.dataset attrs value => do
      let a ← decodeEntries attrs
      match value with
      | some v => pure (V.pydict [("attributes", V.pydict a), ("values", v)])
      | none => pure (V.pydict [("attributes", V.pydict a)])
  | V.numArr shape data =>
      if shape = [1] then pure (V.num data.headI)
      else pure (V.numArr shape data)
  | V.objArr elems => do
      let ds ← decodeList elems
      pure (unwrapList ds)
  | V.voidArr names records => do
      let ds ← void2dict names records
      pure (unwrapList ds)
  | V.voidRec fields => do
      let ds ← decodeList fields
      pure (unwrapList ds)
  | V.bytes b => pure (V.str b)
  | V.pylist xs => pure (unwrapList xs)
  | V.pydict entries => pure (V.pydict entries)
  | V.num q => pure (V.num q)
  | V.str s => pure (V.str s)

/-- `decode_group` mapped over the `(key, value)` pairs of a group or
attribute manager (`HDF5Reader.convert`). -/
def decodeEntries : List (String × V) → Except String (List (String × V))
  | [] => pure []
  | kv :: rest => do
      let d ← decode kv.2
      let ds ← decodeEntries rest
      pure ((kv.1, d) :: ds)

/-- `decode_group` mapped over a list of values. -/
def decodeList : List V → Except String (List V)
  | [] => pure []
  | x :: xs => do
      let d ← decode x
      let ds ← decodeList xs
      pure (d :: ds)

/-- `HDF5Reader.void2dict` (src/reader.py lines 105-120):
`[dict(zip(obj.dtype.names, self.decode_group(record))) for record in obj]`. -/
def void2dict (names : List String) : List V → Except String (List V)
  | [] => pure []
  | r :: rs => do
      let v ← decode r
      let d ← zipDict names v
      let ds ← void2dict names rs
      pure (V.pydict d :: ds)

end

/-- `n` single-child groups (with no attributes) wrapped around `v`:
a source tree nesting `v` at depth `n`. -/
def nestGroup : Nat → V → V
  | 0, v => v
  | n + 1, v => V.group [("child", nestGroup n v)] []

/-- The decoded image of `nestGroup`: `n` single-entry dicts around `v`. -/
def nestDict : Nat → V → V
  | 0, v => v
  | n + 1, v => V.pydict [("child", nestDict n v)]

theorem unwrapList_eq_pylist (xs : List V) (h : xs.length ≠ 1) :
    unwrapList xs = V.pylist xs := by
  match xs with
  | [] => rfl
  | [x] => simp at h
  | x :: y :: t => rfl

theorem decodeEntries_keys (ch es : List (String × V))
    (h : decodeEntries ch = Except.ok es) :
    es.map Prod.fst = ch.map Prod.fst := by
  induction ch generalizing es with
  | nil =>
      simp only [decodeEntries, pure, Except.pure] at h
      cases h
      rfl
  | cons kv rest ih =>
      simp only [decodeEntries] at h
      cases hd : decode kv.2 with
      | error e => rw [hd] at h; exact Except.noConfusion h
      | ok d =>
          rw [hd] at h
          cases hr : decodeEntries rest with
          | error e => rw [hr] at h; exact Except.noConfusion h
          | ok ds =>
              rw [hr] at h
              simp only [Except.bind, pure, Except.pure] at h
              cases h
              simp [ih ds hr]

theorem setKey_mem_keys (es : List (String × V)) (k : String) (v : V) :
    k ∈ (setKey es k v).map Prod.fst := by
  induction es with
  | nil => simp [setKey]
  | cons kv rest ih =>
      by_cases hk : kv.1 = k
      · simp [setKey, hk]
      · simp only [setKey]
        rw [if_neg hk]
        simp [ih]

theorem setKey_keys_subset (es : List (String × V)) (k a : String) (v : V)
    (ha : a ∈ (setKey es k v).map Prod.fst) :
    a = k ∨ a ∈ es.map Prod.fst := by
  induction es with
  | nil => simp [setKey] at ha; simp [ha]
  | cons kv rest ih =>
      by_cases hk : kv.1 = k
      · simp [setKey, hk] at ha
        rcases ha with h | h
        · exact Or.inl h
        · exact Or.inr (by simp [h])
      · simp only [setKey] at ha
        rw [if_neg hk] at ha
        simp only [List.map_cons, List.mem_cons] at ha
        rcases ha with h | h
        · exact Or.inr (by simp [h])
        · rcases ih h with h1 | h1
          · exact Or.inl h1
          · exact Or.inr (by simp [h1])

theorem decode_nestGroup (n : Nat) (v d : V) (h : decode v = Except.ok d) :
    decode (nestGroup n v) = Except.ok (nestDict n d) := by
  induction n with
  | zero => simpa [nestGroup, nestDict] using h
  | succ m ih =>
      simp only [nestGroup, nestDict, decode, decodeEntries, ih,
        Except.bind, pure, Except.pure, bind]
      rfl

/-- C3, counterexample: `decode_group` unwraps a one-element numeric array
only when its shape is exactly `(1,)` (`g.shape == (1,)` in src/reader.py
line 166).  A one-element array of shape `(1,1)` falls through to the
final `else: return g` branch and is returned as an array, not as the bare
scalar the claim requires. -/
theorem singleton_array_shape11_not_unwrapped :
    decode (V.numArr [1, 1] [42]) = Except.ok (V.numArr [1, 1] [42]) ∧
    decode (V.numArr [1, 1] [42]) ≠ Except.ok (V.num 42) := by
  constructor
  · rfl
  · intro h
    rw [show decode (V.numArr [1, 1] [42]) = Except.ok (V.numArr [1, 1] [42])
      from rfl] at h
    simp at h

/-- C3, amended: a numeric array holding exactly one number is normalized to
its bare scalar exactly when its shape is the 1-dimensional `(1,)`, and this
rule applies uniformly at every nesting depth `n` of the tree; a numeric
array of any other shape — including the one-element shape `(1,1)` — is
returned unchanged. -/
theorem singleton_array_unwrap_amended (n : Nat) (q : ℚ) (sh : List Nat)
    (d : List ℚ) (hsh : sh ≠ [1]) :
    decode (nestGroup n (V.numArr [1] [q])) = Except.ok (nestDict n (V.num q)) ∧
    decode (V.numArr sh d) = Except.ok (V.numArr sh d) := by
  constructor
  · exact decode_nestGroup n _ _ rfl
  · simp [decode, hsh, pure, Except.pure]

/-- Witness for `singleton_array_unwrap_amended` at depth 2 with the
shape-`(2,)` array `[1, 2]`. -/
theorem singleton_array_unwrap_amended_wit :
    decode (nestGroup 2 (V.numArr [1] [7])) = Except.ok (nestDict 2 (V.num 7)) ∧
    decode (V.numArr [2] [1, 2]) = Except.ok (V.numArr [2] [1, 2]) :=
  singleton_array_unwrap_amended 2 7 [2] [1, 2] (by decide)

/-- C6: a decoded dataset node always carries the key `attributes` (first),
and carries the key `values` exactly when the raw read `g[()]` succeeds
(`value = some v`); when the raw read raises (`value = none`) decoding still
returns successfully with the `values` key simply absent — the failure is
swallowed by the `try`/`except` of src/reader.py lines 156-161, never
propagated.  The hypothesis is that the dataset's own attributes decode
without raising (their decoding sits outside the `try`). -/
theorem dataset_keys (attrs : List (String × V)) (value : Option V)
    (a : List (String × V)) (h : decodeEntries attrs = Except.ok a) :
    ∃ entries, decode (V.dataset attrs value) = Except.ok (V.pydict entries) ∧
      entries.map Prod.fst =
        "attributes" :: (if value.isSome then ["values"] else []) := by
  cases value with
  | none =>
      refine ⟨[("attributes", V.pydict a)], ?_, by simp⟩
      simp [decode, h, Except.bind, bind, pure, Except.pure]
  | some v =>
      refine ⟨[("attributes", V.pydict a), ("values", v)], ?_, by simp⟩
      simp [decode, h, Except.bind, bind, pure, Except.pure]

/-- Witness for `dataset_keys`: a dataset with a readable value has keys
`attributes, values`; a dataset whose raw read raises has only
`attributes`. -/
theorem dataset_keys_wit :
    (∃ entries, decode (V.dataset [] (some (V.num 7))) =
        Except.ok (V.pydict entries) ∧
      entries.map Prod.fst = ["attributes", "values"]) ∧
    (∃ entries, decode (V.dataset [] none) = Except.ok (V.pydict entries) ∧
      entries.map Prod.fst = ["attributes"]) := by
  constructor
  · simpa using dataset_keys [] (some (V.num 7)) [] rfl
  · simpa using dataset_keys [] none [] rfl

/-- C7: the structured record array with fields `field1`, `field2` holding
the records `(1, 2.0)` and `(3, 4.0)` decodes to a sequence of two dicts
keyed by the field names, with `result[0]["field1"] == 1` and
`result[1]["field2"] == 4.0`. -/
theorem structured_record_array_decode :
    decode (V.voidArr ["field1", "field2"]
        [V.voidRec [V.num 1, V.num 2], V.voidRec [V.num 3, V.num 4]]) =
      Except.ok (V.pylist
        [V.pydict [("field1", V.num 1), ("field2", V.num 2)],
         V.pydict [("field1", V.num 3), ("field2", V.num 4)]]) ∧
    [("field1", V.num 1), ("field2", V.num 2)].lookup "field1" =
      some (V.num 1) ∧
    [("field1", V.num 3), ("field2", V.num 4)].lookup "field2" =
      some (V.num 4) := by
  refine ⟨rfl, ?_, ?_⟩ <;> rfl

/-- C8: decoding a Python list of decoded nodes returns the sole element
itself when the length is exactly 1 and returns the list unchanged when the
length is 2 or more (src/reader.py line 189). -/
theorem sequence_singleton_unwrap (x : V) (xs : List V) :
    decode (V.pylist [x]) = Except.ok x ∧
    (2 ≤ xs.length → decode (V.pylist xs) = Except.ok (V.pylist xs)) := by
  constructor
  · rfl
  · intro h
    have hne : xs.length ≠ 1 := by omega
    simp [decode, unwrapList_eq_pylist xs hne, pure, Except.pure]

/-- Witness for `sequence_singleton_unwrap`: the singleton `[5]` unwraps to
`5`; the pair `[1, 2]` is preserved. -/
theorem sequence_singleton_unwrap_wit :
    decode (V.pylist [V.num 5]) = Except.ok (V.num 5) ∧
    decode (V.pylist [V.num 1, V.num 2]) =
      Except.ok (V.pylist [V.num 1, V.num 2]) :=
  ⟨(sequence_singleton_unwrap (V.num 5) []).1,
   (sequence_singleton_unwrap (V.num 5) [V.num 1, V.num 2]).2 (by decide)⟩

/-- C9: for a structured record array whose records have exactly one field,
`decode_group(record)` singleton-unwraps the record to its bare field value
before `void2dict` zips it with the field names; for a numeric field `zip`
over a bare number raises `TypeError`, and for a byte-string field the
decoded text is iterated character by character, silently pairing the field
name with the first character `"h"` of `"hello"` instead of the whole
string. -/
theorem one_field_record_zip_failure :
    decode (V.voidArr ["field1"] [V.voidRec [V.num 1]]) =
      Except.error "TypeError: zip argument is not iterable" ∧
    decode (V.voidArr ["name"] [V.voidRec [V.bytes "hello"]]) =
      Except.ok (V.pydict [("name", V.str "h")]) :=
  ⟨rfl, rfl⟩

/-- C10, counterexample: a source group with ZERO attributes whose sole
child is a dataset-like node literally named `attributes` decodes to a
mapping that DOES contain the key `attributes` (the child's slot), refuting
the claimed equivalence between carrying the key and carrying at least one
source attribute. -/
theorem group_attr_key_counterexample :
    decode (V.group [("attributes", V.num 5)] []) =
      Except.ok (V.pydict [("attributes", V.num 5)]) ∧
    "attributes" ∈
      ([("attributes", V.num 5)] : List (String × V)).map Prod.fst :=
  ⟨rfl, by simp⟩

/-- C10, amended: a decoded source group contains the key `attributes`
if and only if the source group carries at least one attribute OR one of
its children is itself named `attributes`; a group with zero attributes and
no child of that name decodes to a mapping without the key, unlike a
dataset, whose decoded form always carries it. -/
theorem group_attributes_key_iff (ch ats es : List (String × V))
    (h : decode (V.group ch ats) = Except.ok (V.pydict es)) :
    "attributes" ∈ es.map Prod.fst ↔
      ats ≠ [] ∨ "attributes" ∈ ch.map Prod.fst := by
  rw [decode] at h
  cases hch : decodeEntries ch with
  | error e => rw [hch] at h; exact Except.noConfusion h
  | ok entries =>
      rw [hch] at h
      simp only [bind, Except.bind] at h
      by_cases hats : ats.length = 0
      · rw [if_pos hats] at h
        simp only [pure, Except.pure] at h
        have hes : entries = es := by
          have h2 : V.pydict entries = V.pydict es := by injection h
          injection h2
        subst hes
        have hkeys := decodeEntries_keys ch entries hch
        have hnil : ats = [] := List.eq_nil_of_length_eq_zero hats
        simp [hnil, hkeys]
      · rw [if_neg hats] at h
        cases hats2 : decodeEntries ats with
        | error e => rw [hats2] at h; exact Except.noConfusion h
        | ok a =>
            rw [hats2] at h
            simp only [bind, Except.bind, pure, Except.pure] at h
            have hes : setKey entries "attributes" (V.pydict a) = es := by
              have h2 : V.pydict (setKey entries "attributes" (V.pydict a)) =
                  V.pydict es := by injection h
              injection h2
            have hne : ats ≠ [] := by
              intro hc
              rw [hc] at hats
              exact hats rfl
            rw [← hes]
            constructor
            · intro _
              exact Or.inl hne
            · intro _
              exact setKey_mem_keys entries "attributes" (V.pydict a)

/-- Witness for `group_attributes_key_iff`: a group with one child `x` and
one attribute `a` decodes with the `attributes` key appended. -/
theorem group_attributes_key_iff_wit :
    "attributes" ∈
        ([("x", V.num 1), ("attributes", V.pydict [("a", V.num 2)])] :
          List (String × V)).map Prod.fst ↔
      ([("a", V.num 2)] : List (String × V)) ≠ [] ∨
        "attributes" ∈ ([("x", V.num 1)] : List (String × V)).map Prod.fst :=
  group_attributes_key_iff [("x", V.num 1)] [("a", V.num 2)]
    [("x", V.num 1), ("attributes", V.pydict [("a", V.num 2)])] rfl

/-!
Part 2 — the grid processor (`src/utils.py`).

2-D numpy arrays are embedded as `List (List ℚ)` in row-major order; a cell
of the height field `Z` is an `Option ℚ`, with `none` standing for IEEE NaN
(the only NaN-producing operations in `src/utils.py` are the sentinel
assignments `Z[Z == thr] = np.nan` and `z[z >= thr] = np.nan`, and NaN
compares false under `==`, `>=` and `<`, which is exactly the behaviour of
the `Option` model below).  `scipy.interpolate.griddata(..., method =
'nearest')` is embedded by its documented semantics: every query point
receives the value of the valid sample point nearest in Euclidean distance
(squared Euclidean distance over `ℚ`, which induces the same ordering);
ties are broken deterministically towards the earlier sample, which is one
fixed choice of the library's implementation-defined tie order.  Called
with an empty sample set, `griddata` raises — embedded as `Option.none`
(the spec names this failure `InsufficientDataError`). -/

/-- A cell of a floating-point 2-D field: `none` is NaN. -/
abbrev Cell := Option ℚ

/-- `A[i, j]` with an out-of-range default, for stating cell-wise facts. -/
def cell2 (A : List (List α)) (i j : Nat) (d : α) : α :=
  (A.getD i []).getD j d

/-- `A` is an `M × N` array. -/
def shape2 (A : List (List α)) (M N : Nat) : Prop :=
  A.length = M ∧ ∀ r ∈ A, r.length = N

/-- The missing-value marking of `fill_nodata` (src/utils.py line 33,
`Z[Z == thr] = np.nan`): a cell is invalidated exactly when it EQUALS the
threshold; NaN cells stay NaN (NaN == thr is false, and they are already
excluded by the `~np.isnan` mask). -/
def markCell (thr : ℚ) : Cell → Cell
  | some q => if q = thr then none else some q
  | none => none

/-- The valid sample set of `fill_nodata` (src/utils.py lines 35-38):
the `(x, y, z)` triples of the grid cells that are not NaN after marking,
in row-major (boolean-mask) order. -/
def validSamples (X Y : List (List ℚ)) (Z : List (List Cell)) (thr : ℚ) :
    List (ℚ × ℚ × ℚ) :=
  (X.flatten.zip (Y.flatten.zip Z.flatten)).filterMap
    (fun p => match markCell thr p.2.2 with
      | some q => some (p.1, p.2.1, q)
      | none => none)

/-- Squared Euclidean distance from the query point `(x, y)` to the sample
point `p` in `(X, Y)` space. -/
def sqDist (x y : ℚ) (p : ℚ × ℚ × ℚ) : ℚ :=
  (x - p.1) ^ 2 + (y - p.2.1) ^ 2

/-- The sample nearest to `(x, y)` (ties towards the earlier sample):
the point `cKDTree.query` returns inside `griddata(method='nearest')`. -/
def nearest (x y : ℚ) : List (ℚ × ℚ × ℚ) → Option (ℚ × ℚ × ℚ)
  | [] => none
  | p :: ps =>
      match nearest x y ps with
      | none => some p
      | some q => some (if sqDist x y q < sqDist x y p then q else p)

/-- The interpolated value at `(x, y)`: the `z` of the nearest sample. -/
def nearestVal (x y : ℚ) (pts : List (ℚ × ℚ × ℚ)) : ℚ :=
  match nearest x y pts with
  | some p => p.2.2
  | none => 0

/-- `fill_nodata` (src/utils.py lines 9-41): mark cells equal to `thr` as
NaN, collect the remaining valid samples, and re-evaluate the whole grid by
nearest-neighbour interpolation over them; with zero valid samples the
interpolation call raises (`none`). -/
def fill_nodata (X Y : List (List ℚ)) (Z : List (List Cell)) (thr : ℚ) :
    Option (List (List ℚ)) :=
  let pts := validSamples X Y Z thr
  if pts.isEmpty then none
  else
    some (List.zipWith
      (fun xr yr => List.zipWith (fun x y => nearestVal x y pts) xr yr) X Y)

/-- The cell transform of `remove_nodata` (src/utils.py line 65,
`z[z >= thr] = np.nan`): a value at or above the threshold becomes NaN, a
value below it is kept, NaN stays NaN (NaN >= thr is false). -/
def rmCell (thr : ℚ) : Cell → Cell
  | some q => if thr ≤ q then none else some q
  | none => none

/-- `remove_nodata` (src/utils.py lines 44-67): copy `Z` (the input array
is left untouched — in this embedding all values are immutable, mirroring
`z = np.copy(Z)`) and apply `rmCell` to every cell. -/
def remove_nodata (Z : List (List Cell)) (thr : ℚ) : List (List Cell) :=
  Z.map (fun row => row.map (rmCell thr))

theorem markCell_some (thr : ℚ) (c : Cell) (q : ℚ)
    (h : markCell thr c = some q) : q ≠ thr := by
  match c with
  | none => simp [markCell] at h
  | some r =>
      by_cases hr : r = thr
      · simp [markCell, hr] at h
      · simp [markCell, hr] at h
        rw [← h]
        exact hr

theorem validSamples_ne_thr (X Y : List (List ℚ)) (Z : List (List Cell))
    (thr : ℚ) (p : ℚ × ℚ × ℚ) (hp : p ∈ validSamples X Y Z thr) :
    p.2.2 ≠ thr := by
  rw [validSamples, List.mem_filterMap] at hp
  obtain ⟨a, _, ha⟩ := hp
  cases hm : markCell thr a.2.2 with
  | none => rw [hm] at ha; exact Option.noConfusion ha
  | some q =>
      rw [hm] at ha
      have hq := markCell_some thr a.2.2 q hm
      cases ha
      exact hq

/-- C4: when every cell of `Z` equals the threshold, the valid sample set
is empty and `fill_nodata` fails (the interpolation call raises — the
spec's `InsufficientDataError`) instead of returning a grid. -/
theorem fill_nodata_all_missing (X Y : List (List ℚ)) (Z : List (List Cell))
    (thr : ℚ) (hall : ∀ row ∈ Z, ∀ c ∈ row, c = some thr) :
    fill_nodata X Y Z thr = none := by
  have hvs : validSamples X Y Z thr = [] := by
    rw [validSamples, List.filterMap_eq_nil_iff]
    intro a ha
    have hz : a.2.2 ∈ Z.flatten := by
      have h1 := List.of_mem_zip ha
      have h2 := List.of_mem_zip h1.2
      exact h2.2
    rw [List.mem_flatten] at hz
    obtain ⟨row, hrow, hc⟩ := hz
    have := hall row hrow a.2.2 hc
    rw [this]
    simp [markCell]
  rw [fill_nodata]
  simp [hvs]

/-- Witness for `fill_nodata_all_missing` on a 1×2 all-missing field. -/
theorem fill_nodata_all_missing_wit :
    fill_nodata [[0, 1]] [[0, 0]] [[some 3, some 3]] 3 = none :=
  fill_nodata_all_missing [[0, 1]] [[0, 0]] [[some 3, some 3]] 3
    (by intro row hrow c hc; simp at hrow; rw [hrow] at hc; simp at hc; rw [hc])

theorem cell2_map_map (f : Cell → Cell) (hf : f none = none)
    (Z : List (List Cell)) (i j : Nat) :
    cell2 (Z.map (fun row => row.map f)) i j none = f (cell2 Z i j none) := by
  by_cases hi : i < Z.length
  · have hi2 : i < (Z.map (fun row => row.map f)).length := by
      simpa using hi
    rw [cell2, cell2, List.getD_eq_getElem _ _ hi2, List.getD_eq_getElem _ _ hi,
      List.getElem_map]
    by_cases hj : j < (Z[i]).length
    · have hj2 : j < ((Z[i]).map f).length := by simpa using hj
      rw [List.getD_eq_getElem _ _ hj2, List.getD_eq_getElem _ _ hj,
        List.getElem_map]
    · rw [List.getD_eq_default _ _ (by simpa using Nat.le_of_not_lt hj),
        List.getD_eq_default _ _ (Nat.le_of_not_lt hj), hf]
  · have hi2 : (Z.map (fun row => row.map f)).length ≤ i := by
      simpa using Nat.le_of_not_lt hi
    rw [cell2, cell2, List.getD_eq_default _ _ hi2,
      List.getD_eq_default _ _ (Nat.le_of_not_lt hi)]
    simp [hf]

/-- C2: `remove_nodata` keeps the shape of `Z`, sends every cell holding a
value `q` with `thr ≤ q` — both `q = thr` and `q > thr` — to NaN, keeps
every cell with `q < thr` unchanged, and leaves NaN cells NaN; the function
is a pure map on a copy (`z = np.copy(Z)`), the input being unmodified.
The boundary is asymmetric with `fill_nodata`, whose marking invalidates
only exact equality: a value strictly above the threshold stays a valid
sample there. -/
theorem remove_nodata_spec (Z : List (List Cell)) (thr q : ℚ) (i j : Nat) :
    (remove_nodata Z thr).length = Z.length ∧
    (∀ k, ((remove_nodata Z thr).getD k []).length = (Z.getD k []).length) ∧
    (cell2 Z i j none = some q →
      cell2 (remove_nodata Z thr) i j none =
        if thr ≤ q then none else some q) ∧
    (cell2 Z i j none = none → cell2 (remove_nodata Z thr) i j none = none) ∧
    (thr ≤ q → rmCell thr (some q) = none) ∧
    (q < thr → rmCell thr (some q) = some q) ∧
    (thr < q → markCell thr (some q) = some q) := by
  have hcell : cell2 (remove_nodata Z thr) i j none =
      rmCell thr (cell2 Z i j none) := cell2_map_map (rmCell thr) rfl Z i j
  refine ⟨by simp [remove_nodata], ?_, ?_, ?_, ?_, ?_, ?_⟩
  · intro k
    by_cases hk : k < Z.length
    · have hk2 : k < (remove_nodata Z thr).length := by
        simpa [remove_nodata] using hk
      rw [List.getD_eq_getElem _ _ hk2, List.getD_eq_getElem _ _ hk]
      simp only [remove_nodata, List.getElem_map, List.length_map]
    · rw [List.getD_eq_default _ _ (by simpa [remove_nodata] using Nat.le_of_not_lt hk),
        List.getD_eq_default _ _ (Nat.le_of_not_lt hk)]
  · intro hq
    rw [hcell, hq, rmCell]
  · intro hq
    rw [hcell, hq, rmCell]
  · intro hq
    simp [rmCell, hq]
  · intro hq
    simp [rmCell, not_le.mpr hq]
  · intro hq
    simp [markCell, ne_of_gt hq]

/-- Witness for `remove_nodata_spec` on `Z = [[5, 3, NaN]]` with
threshold 4: `5 ↦ NaN`, `4` would too, `3` is kept, NaN stays NaN. -/
theorem remove_nodata_spec_wit :
    cell2 (remove_nodata [[some 5, some 3, none]] 4) 0 0 none = none ∧
    cell2 (remove_nodata [[some 5, some 3, none]] 4) 0 1 none = some 3 ∧
    cell2 (remove_nodata [[some 5, some 3, none]] 4) 0 2 none = none ∧
    rmCell 4 (some 4) = none ∧
    markCell 4 (some 5) = some 5 := by
  have h0 := remove_nodata_spec [[some 5, some 3, none]] 4 5 0 0
  have h1 := remove_nodata_spec [[some 5, some 3, none]] 4 3 0 1
  have h2 := remove_nodata_spec [[some 5, some 3, none]] 4 4 0 2
  refine ⟨?_, ?_, ?_, ?_, ?_⟩
  · have := h0.2.2.1 (by rfl)
    rw [this]
    norm_num
  · have := h1.2.2.1 (by rfl)
    rw [this]
    norm_num
  · exact h2.2.2.2.1 (by rfl)
  · exact h2.2.2.2.2.1 (by norm_num)
  · exact h0.2.2.2.2.2.2 (by norm_num)

theorem nearest_eq_none_iff (x y : ℚ) (pts : List (ℚ × ℚ × ℚ)) :
    nearest x y pts = none ↔ pts = [] := by
  cases pts with
  | nil => simp [nearest]
  | cons p ps =>
      simp only [nearest]
      cases h : nearest x y ps <;> simp

theorem nearest_mem (x y : ℚ) (pts : List (ℚ × ℚ × ℚ)) (p : ℚ × ℚ × ℚ)
    (h : nearest x y pts = some p) : p ∈ pts := by
  induction pts generalizing p with
  | nil => simp [nearest] at h
  | cons a l ih =>
      rw [nearest] at h
      cases hl : nearest x y l with
      | none =>
          rw [hl] at h
          cases h
          exact List.mem_cons_self a l
      | some b =>
          rw [hl] at h
          cases h
          by_cases hc : sqDist x y b < sqDist x y a
          · rw [if_pos hc]
            exact List.mem_cons_of_mem a (ih b hl)
          · rw [if_neg hc]
            exact List.mem_cons_self a l

theorem nearest_min (x y : ℚ) (pts : List (ℚ × ℚ × ℚ)) (p : ℚ × ℚ × ℚ)
    (h : nearest x y pts = some p) :
    ∀ q ∈ pts, sqDist x y p ≤ sqDist x y q := by
  induction pts generalizing p with
  | nil => simp [nearest] at h
  | cons a l ih =>
      rw [nearest] at h
      cases hl : nearest x y l with
      | none =>
          rw [hl] at h
          cases h
          have hn : l = [] := (nearest_eq_none_iff x y l).mp hl
          subst hn
          intro q hq
          simp only [List.mem_singleton] at hq
          rw [hq]
      | some b =>
          rw [hl] at h
          cases h
          intro q hq
          rcases List.mem_cons.mp hq with rfl | hql
          · by_cases hc : sqDist x y b < sqDist x y q
            · rw [if_pos hc]
              exact le_of_lt hc
            · rw [if_neg hc]
          · by_cases hc : sqDist x y b < sqDist x y a
            · rw [if_pos hc]
              exact ih b hl q hql
            · rw [if_neg hc]
              exact le_trans (not_lt.mp hc) (ih b hl q hql)

theorem nearest_unique (x y : ℚ) (pts : List (ℚ × ℚ × ℚ)) (p : ℚ × ℚ × ℚ)
    (hp : p ∈ pts)
    (hstrict : ∀ q ∈ pts, q ≠ p → sqDist x y p < sqDist x y q) :
    nearestVal x y pts = p.2.2 := by
  have hne : pts ≠ [] := List.ne_nil_of_mem hp
  cases hr : nearest x y pts with
  | none => exact absurd ((nearest_eq_none_iff x y pts).mp hr) hne
  | some r =>
      have hrm := nearest_mem x y pts r hr
      have hrmin := nearest_min x y pts r hr p hp
      by_cases hrp : r = p
      · rw [nearestVal, hr, hrp]
      · have := hstrict r hrm hrp
        linarith

theorem cell2_fillGrid (X Y : List (List ℚ)) (pts : List (ℚ × ℚ × ℚ))
    (M N : Nat) (hX : shape2 X M N) (hY : shape2 Y M N)
    (i j : Nat) (hi : i < M) (hj : j < N) :
    cell2 (List.zipWith
        (fun xr yr => List.zipWith (fun x y => nearestVal x y pts) xr yr) X Y)
      i j 0 = nearestVal (cell2 X i j 0) (cell2 Y i j 0) pts := by
  obtain ⟨hXl, hXr⟩ := hX
  obtain ⟨hYl, hYr⟩ := hY
  have hiX : i < X.length := by rw [hXl]; exact hi
  have hiY : i < Y.length := by rw [hYl]; exact hi
  have hiW : i < (List.zipWith
      (fun xr yr => List.zipWith (fun x y => nearestVal x y pts) xr yr)
      X Y).length := by
    rw [List.length_zipWith, hXl, hYl, min_self]
    exact hi
  rw [cell2, cell2, cell2, List.getD_eq_getElem _ _ hiW,
    List.getD_eq_getElem _ _ hiX, List.getD_eq_getElem _ _ hiY]
  simp only [List.getElem_zipWith]
  have hXiN : (X[i]).length = N := hXr _ (List.getElem_mem hiX)
  have hYiN : (Y[i]).length = N := hYr _ (List.getElem_mem hiY)
  have hjX : j < (X[i]).length := by rw [hXiN]; exact hj
  have hjY : j < (Y[i]).length := by rw [hYiN]; exact hj
  have hjW : j < (List.zipWith (fun x y => nearestVal x y pts)
      (X[i]) (Y[i])).length := by
    rw [List.length_zipWith, hXiN, hYiN, min_self]
    exact hj
  rw [List.getD_eq_getElem _ _ hjW, List.getD_eq_getElem _ _ hjX,
    List.getD_eq_getElem _ _ hjY]
  simp only [List.getElem_zipWith]

/-- C1: with at least one valid sample, `fill_nodata` returns an `M × N`
grid of plain (NaN-free, in this embedding `ℚ`-valued) numbers in which
every cell is the `z` of some valid sample — hence never equal to `thr` and
never NaN — and every cell whose nearest valid sample (in Euclidean
distance over `(X, Y)`, here the order-equivalent squared distance) is
unique equals that sample's `z` value. -/
theorem fill_nodata_spec (X Y : List (List ℚ)) (Z : List (List Cell))
    (thr : ℚ) (M N : Nat) (hX : shape2 X M N) (hY : shape2 Y M N)
    (_hZ : shape2 Z M N) (hv : validSamples X Y Z thr ≠ []) :
    ∃ W, fill_nodata X Y Z thr = some W ∧ shape2 W M N ∧
      (∀ i j, i < M → j < N →
        ∃ p ∈ validSamples X Y Z thr,
          cell2 W i j 0 = p.2.2 ∧ cell2 W i j 0 ≠ thr) ∧
      (∀ i j, i < M → j < N → ∀ p ∈ validSamples X Y Z thr,
        (∀ q ∈ validSamples X Y Z thr, q ≠ p →
          sqDist (cell2 X i j 0) (cell2 Y i j 0) p <
            sqDist (cell2 X i j 0) (cell2 Y i j 0) q) →
        cell2 W i j 0 = p.2.2) := by
  refine ⟨List.zipWith
      (fun xr yr => List.zipWith
        (fun x y => nearestVal x y (validSamples X Y Z thr)) xr yr) X Y,
    ?_, ?_, ?_, ?_⟩
  · rw [fill_nodata]
    rw [if_neg (by simpa [List.isEmpty_iff] using hv)]
  · constructor
    · rw [List.length_zipWith, hX.1, hY.1, min_self]
    · intro r hr
      rw [List.mem_iff_getElem] at hr
      obtain ⟨i, hiW, hieq⟩ := hr
      rw [← hieq]
      have hiX : i < X.length := by
        rw [List.length_zipWith] at hiW
        exact lt_of_lt_of_le hiW (min_le_left _ _)
      have hiY : i < Y.length := by
        rw [List.length_zipWith] at hiW
        exact lt_of_lt_of_le hiW (min_le_right _ _)
      simp only [List.getElem_zipWith]
      rw [List.length_zipWith, hX.2 _ (List.getElem_mem hiX),
        hY.2 _ (List.getElem_mem hiY), min_self]
  · intro i j hi hj
    rw [cell2_fillGrid X Y (validSamples X Y Z thr) M N hX hY i j hi hj]
    cases hr : nearest (cell2 X i j 0) (cell2 Y i j 0)
        (validSamples X Y Z thr) with
    | none => exact absurd ((nearest_eq_none_iff _ _ _).mp hr) hv
    | some p =>
        refine ⟨p, nearest_mem _ _ _ _ hr, ?_, ?_⟩
        · rw [nearestVal, hr]
        · rw [nearestVal, hr]
          exact validSamples_ne_thr X Y Z thr p (nearest_mem _ _ _ _ hr)
  · intro i j hi hj p hp hstrict
    rw [cell2_fillGrid X Y (validSamples X Y Z thr) M N hX hY i j hi hj]
    exact nearest_unique _ _ _ p hp hstrict

/-- Witness for `fill_nodata_spec` on the 1×2 grid with `Z = [9, 5]` and
threshold 5: the single valid sample `(0, 0, 9)` fills the whole grid. -/
theorem fill_nodata_spec_wit :
    ∃ W, fill_nodata [[0, 1]] [[0, 0]] [[some 9, some 5]] 5 = some W ∧
      shape2 W 1 2 ∧
      (∀ i j, i < 1 → j < 2 →
        ∃ p ∈ validSamples [[0, 1]] [[0, 0]] [[some 9, some 5]] 5,
          cell2 W i j 0 = p.2.2 ∧ cell2 W i j 0 ≠ 5) ∧
      (∀ i j, i < 1 → j < 2 →
        ∀ p ∈ validSamples [[0, 1]] [[0, 0]] [[some 9, some 5]] 5,
        (∀ q ∈ validSamples [[0, 1]] [[0, 0]] [[some 9, some 5]] 5, q ≠ p →
          sqDist (cell2 [[0, 1]] i j 0) (cell2 [[0, 0]] i j 0) p <
            sqDist (cell2 [[0, 1]] i j 0) (cell2 [[0, 0]] i j 0) q) →
        cell2 W i j 0 = p.2.2) :=
  fill_nodata_spec [[0, 1]] [[0, 0]] [[some 9, some 5]] 5 1 2
    (by constructor <;> simp [shape2])
    (by constructor <;> simp [shape2])
    (by constructor <;> simp [shape2])
    (by decide)

/-- The plane model `plane(xy, a, b, c) = a*x + b*y + c`
(src/utils.py lines 69-74), in curried form. -/
def plane (a b c x y : ℚ) : ℚ := a * x + b * y + c

/-- Flattened data triples `(x_data, y_data, z_data)` of `remove_offset`
(src/utils.py lines 101-103). -/
def flatPts (X Y Z : List (List ℚ)) : List (ℚ × ℚ × ℚ) :=
  X.flatten.zip (Y.flatten.zip Z.flatten)

def sumXX (pts : List (ℚ × ℚ × ℚ)) : ℚ := (pts.map (fun p => p.1 * p.1)).sum
def sumXY (pts : List (ℚ × ℚ × ℚ)) : ℚ := (pts.map (fun p => p.1 * p.2.1)).sum
def sumYY (pts : List (ℚ × ℚ × ℚ)) : ℚ := (pts.map (fun p => p.2.1 * p.2.1)).sum
def sumX (pts : List (ℚ × ℚ × ℚ)) : ℚ := (pts.map (fun p => p.1)).sum
def sumY (pts : List (ℚ × ℚ × ℚ)) : ℚ := (pts.map (fun p => p.2.1)).sum
def sumXZ (pts : List (ℚ × ℚ × ℚ)) : ℚ := (pts.map (fun p => p.1 * p.2.2)).sum
def sumYZ (pts : List (ℚ × ℚ × ℚ)) : ℚ := (pts.map (fun p => p.2.1 * p.2.2)).sum
def sumZ (pts : List (ℚ × ℚ × ℚ)) : ℚ := (pts.map (fun p => p.2.2)).sum

/-- Determinant of the Gram (normal-equations) matrix of the linear
least-squares problem `z ≈ a*x + b*y + c`. -/
def planeDet (pts : List (ℚ × ℚ × ℚ)) : ℚ :=
  sumXX pts * (sumYY pts * (pts.length : ℚ) - sumY pts * sumY pts)
    - sumXY pts * (sumXY pts * (pts.length : ℚ) - sumY pts * sumX pts)
    + sumX pts * (sumXY pts * sumY pts - sumYY pts * sumX pts)

/-- Cramer numerator for the coefficient `a`. -/
def planeDetA (pts : List (ℚ × ℚ × ℚ)) : ℚ :=
  sumXZ pts * (sumYY pts * (pts.length : ℚ) - sumY pts * sumY pts)
    - sumXY pts * (sumYZ pts * (pts.length : ℚ) - sumY pts * sumZ pts)
    + sumX pts * (sumYZ pts * sumY pts - sumYY pts * sumZ pts)

/-- Cramer numerator for the coefficient `b`. -/
def planeDetB (pts : List (ℚ × ℚ × ℚ)) : ℚ :=
  sumXX pts * (sumYZ pts * (pts.length : ℚ) - sumY pts * sumZ pts)
    - sumXZ pts * (sumXY pts * (pts.length : ℚ) - sumY pts * sumX pts)
    + sumX pts * (sumXY pts * sumZ pts - sumYZ pts * sumX pts)

/-- Cramer numerator for the coefficient `c`. -/
def planeDetC (pts : List (ℚ × ℚ × ℚ)) : ℚ :=
  sumXX pts * (sumYY pts * sumZ pts - sumYZ pts * sumY pts)
    - sumXY pts * (sumXY pts * sumZ pts - sumYZ pts * sumX pts)
    + sumXZ pts * (sumXY pts * sumY pts - sumYY pts * sumX pts)

/-- The least-squares fit `curve_fit(plane, (x_data, y_data), z_data)`
(src/utils.py line 106), modelled by its semantics: the plane model is
linear in `(a, b, c)`, so the fit is the unique solution of the normal
equations, here by Cramer's rule over `ℚ`; a singular Gram matrix
(degenerate point geometry) makes the regression fail (`none`, the spec's
`FitError`). -/
def fitPlane (pts : List (ℚ × ℚ × ℚ)) : Option (ℚ × ℚ × ℚ) :=
  if planeDet pts = 0 then none
  else some (planeDetA pts / planeDet pts, planeDetB pts / planeDet pts,
    planeDetC pts / planeDet pts)

/-- `numpy.reshape(ny, nx)` of a flat row-major list. -/
def reshape (ny nx : Nat) (l : List ℚ) : List (List ℚ) :=
  (List.range ny).map (fun i => (l.drop (i * nx)).take nx)

/-- `remove_offset` (src/utils.py lines 77-110): flatten the grids, fit the
plane, subtract its value at every `(x, y)` from the corresponding `z` and
reshape the residuals back to `Z.shape`. -/
def remove_offset (X Y Z : List (List ℚ)) :
    Option ((ℚ × ℚ × ℚ) × List (List ℚ)) :=
  match fitPlane (flatPts X Y Z) with
  | none => none
  | some (a, b, c) =>
      some ((a, b, c),
        reshape Z.length (Z.headI).length
          ((flatPts X Y Z).map (fun p => p.2.2 - plane a b c p.1 p.2.1)))

theorem sums_of_plane (pts : List (ℚ × ℚ × ℚ)) (a0 b0 c0 : ℚ)
    (h : ∀ p ∈ pts, p.2.2 = a0 * p.1 + b0 * p.2.1 + c0) :
    sumXZ pts = a0 * sumXX pts + b0 * sumXY pts + c0 * sumX pts ∧
    sumYZ pts = a0 * sumXY pts + b0 * sumYY pts + c0 * sumY pts ∧
    sumZ pts = a0 * sumX pts + b0 * sumY pts + c0 * (pts.length : ℚ) := by
  induction pts with
  | nil => simp [sumXZ, sumYZ, sumZ, sumXX, sumXY, sumYY, sumX, sumY]
  | cons p l ih =>
      have hp := h p (List.mem_cons_self p l)
      obtain ⟨ih1, ih2, ih3⟩ := ih (fun q hq => h q (List.mem_cons_of_mem p hq))
      refine ⟨?_, ?_, ?_⟩
      · simp only [sumXZ, sumXX, sumXY, sumX, List.map_cons, List.sum_cons] at ih1 ⊢
        rw [hp, ih1]
        ring
      · simp only [sumYZ, sumXY, sumYY, sumY, List.map_cons, List.sum_cons] at ih2 ⊢
        rw [hp, ih2]
        ring
      · simp only [sumZ, sumX, sumY, List.map_cons, List.sum_cons,
          List.length_cons] at ih3 ⊢
        rw [hp, ih3]
        push_cast
        ring

theorem fitPlane_exact (pts : List (ℚ × ℚ × ℚ)) (a0 b0 c0 : ℚ)
    (h : ∀ p ∈ pts, p.2.2 = a0 * p.1 + b0 * p.2.1 + c0)
    (hdet : planeDet pts ≠ 0) :
    fitPlane pts = some (a0, b0, c0) := by
  obtain ⟨h1, h2, h3⟩ := sums_of_plane pts a0 b0 c0 h
  have hA : planeDetA pts = a0 * planeDet pts := by
    rw [planeDetA, planeDet, h1, h2, h3]
    ring
  have hB : planeDetB pts = b0 * planeDet pts := by
    rw [planeDetB, planeDet, h1, h2, h3]
    ring
  have hC : planeDetC pts = c0 * planeDet pts := by
    rw [planeDetC, planeDet, h1, h2, h3]
    ring
  rw [fitPlane, if_neg hdet, hA, hB, hC,
    mul_div_assoc, div_self hdet, mul_one,
    mul_div_assoc, div_self hdet, mul_one,
    mul_div_assoc, div_self hdet, mul_one]

theorem length_flatten_shape2 {α : Type} (A : List (List α)) (M N : Nat)
    (h : shape2 A M N) : A.flatten.length = M * N := by
  rw [List.length_flatten]
  have hrep : A.map List.length = List.replicate M N := by
    rw [List.eq_replicate_iff]
    constructor
    · simp [h.1]
    · intro b hb
      rw [List.mem_map] at hb
      obtain ⟨r, hr, rfl⟩ := hb
      exact h.2 r hr
  rw [hrep, List.sum_replicate, smul_eq_mul]

theorem length_flatPts (X Y Z : List (List ℚ)) (M N : Nat)
    (hX : shape2 X M N) (hY : shape2 Y M N) (hZ : shape2 Z M N) :
    (flatPts X Y Z).length = M * N := by
  rw [flatPts, List.length_zip, List.length_zip,
    length_flatten_shape2 X M N hX, length_flatten_shape2 Y M N hY,
    length_flatten_shape2 Z M N hZ, min_self, min_self]

theorem shape2_reshape (l : List ℚ) (M N : Nat) (hl : l.length = M * N) :
    shape2 (reshape M N l) M N := by
  constructor
  · simp [reshape]
  · intro r hr
    simp only [reshape, List.mem_map, List.mem_range] at hr
    obtain ⟨i, hi, rfl⟩ := hr
    rw [List.length_take, List.length_drop, hl]
    have h1 : (i + 1) * N ≤ M * N := Nat.mul_le_mul_right N (Nat.succ_le_of_lt hi)
    have h2 : i * N + N ≤ M * N := by
      rw [Nat.succ_mul] at h1
      exact h1
    omega

theorem mem_reshape (l : List ℚ) (M N : Nat) (r : List ℚ) (v : ℚ)
    (hr : r ∈ reshape M N l) (hv : v ∈ r) : v ∈ l := by
  simp only [reshape, List.mem_map, List.mem_range] at hr
  obtain ⟨i, _, rfl⟩ := hr
  exact List.mem_of_mem_drop (List.mem_of_mem_take hv)

/-- C5: on grids of identical `M × N` shape with `Z` built exactly as
`a0*X + b0*Y + c0` and a nonsingular normal-equations (Gram) matrix — which
is what "X, Y on a regular grid" provides, and whose failure is the spec's
degenerate-geometry `FitError` — `remove_offset` recovers the plane
parameters `(a0, b0, c0)` exactly (tolerance 0 over `ℚ`, hence within any
numerical tolerance) and returns the residual field `Z` minus the fitted
plane evaluated at each `(x, y)`, reshaped to the `M × N` shape of `Z`,
with every residual value exactly 0. -/
theorem remove_offset_spec (X Y Z : List (List ℚ)) (a0 b0 c0 : ℚ)
    (M N : Nat) (hX : shape2 X M N) (hY : shape2 Y M N) (hZ : shape2 Z M N)
    (hplane : ∀ p ∈ flatPts X Y Z, p.2.2 = a0 * p.1 + b0 * p.2.1 + c0)
    (hdet : planeDet (flatPts X Y Z) ≠ 0) :
    ∃ R, remove_offset X Y Z = some ((a0, b0, c0), R) ∧
      R = reshape M N
        ((flatPts X Y Z).map (fun p => p.2.2 - plane a0 b0 c0 p.1 p.2.1)) ∧
      shape2 R M N ∧ ∀ r ∈ R, ∀ v ∈ r, v = 0 := by
  have hfit := fitPlane_exact (flatPts X Y Z) a0 b0 c0 hplane hdet
  have hflatlen : (flatPts X Y Z).length = M * N :=
    length_flatPts X Y Z M N hX hY hZ
  have hne : flatPts X Y Z ≠ [] := by
    intro hc
    apply hdet
    rw [hc]
    simp [planeDet, sumXX, sumXY, sumYY, sumX, sumY]
  have hMN : 0 < M * N := by
    rcases Nat.eq_zero_or_pos (M * N) with h0 | h0
    · exact absurd (List.eq_nil_of_length_eq_zero (hflatlen.trans h0)) hne
    · exact h0
  have hMne : M ≠ 0 := by
    intro h
    rw [h, Nat.zero_mul] at hMN
    exact Nat.lt_irrefl 0 hMN
  have hNne : N ≠ 0 := by
    intro h
    rw [h, Nat.mul_zero] at hMN
    exact Nat.lt_irrefl 0 hMN
  have hZlen : Z.length = M := hZ.1
  have hheadI : (Z.headI).length = N := by
    cases Z with
    | nil =>
        exfalso
        apply hMne
        rw [← hZlen]
        rfl
    | cons r t => exact hZ.2 r (List.mem_cons_self r t)
  refine ⟨reshape M N
      ((flatPts X Y Z).map (fun p => p.2.2 - plane a0 b0 c0 p.1 p.2.1)),
    ?_, rfl, ?_, ?_⟩
  · unfold remove_offset
    rw [hfit, hZlen, hheadI]
  · exact shape2_reshape _ M N (by rw [List.length_map, hflatlen])
  · intro r hr v hv
    have hvl := mem_reshape _ M N r v hr hv
    rw [List.mem_map] at hvl
    obtain ⟨p, hp, rfl⟩ := hvl
    rw [plane, hplane p hp]
    ring

/-- Witness for `remove_offset_spec` on the 2×2 regular grid with
`Z = 2*X + 3*Y + 1`. -/
theorem remove_offset_spec_wit :
    ∃ R, remove_offset [[0, 1], [0, 1]] [[0, 0], [1, 1]] [[1, 3], [4, 6]] =
        some ((2, 3, 1), R) ∧
      R = reshape 2 2
        ((flatPts [[0, 1], [0, 1]] [[0, 0], [1, 1]] [[1, 3], [4, 6]]).map
          (fun p => p.2.2 - plane 2 3 1 p.1 p.2.1)) ∧
      shape2 R 2 2 ∧ ∀ r ∈ R, ∀ v ∈ r, v = 0 :=
  remove_offset_spec [[0, 1], [0, 1]] [[0, 0], [1, 1]] [[1, 3], [4, 6]]
    2 3 1 2 2
    (by constructor <;> simp [shape2])
    (by constructor <;> simp [shape2])
    (by constructor <;> simp [shape2])
    (by
      intro p hp
      simp only [flatPts, List.flatten_cons, List.flatten_nil, List.append_nil,
        List.cons_append, List.nil_append, List.zip_cons_cons, List.zip_nil_right,
        List.mem_cons, List.not_mem_nil, or_false] at hp
      rcases hp with rfl | rfl | rfl | rfl <;> norm_num)
    (by
      norm_num [planeDet, sumXX, sumXY, sumYY, sumX, sumY, flatPts])
